import Mathlib

/-
Verification of the FLSpec flow-execution engine
(openfl/experimental/interface/fl_spec.py).

The Python module is embedded shallowly:

* a flow-state object (an FLSpec instance) becomes a record holding its
  named user attributes as an association list from attribute name to
  value, together with the internal fields _foreach_methods and
  execute_next;
* Python setattr / getattr / hasattr / delattr become association-list
  operations;
* deepcopy becomes plain value copying (the pure embedding has value
  semantics); a separate reference-semantics model with an explicit heap
  is used where object identity itself is the property under study;
* functions that can raise become Except-valued functions.

Helper functions imported by fl_spec.py from openfl.experimental.utilities
(generate_artifacts, filter_attributes, aggregator_to_collaborator,
collaborator_to_aggregator, should_transfer) are not part of the reviewed
sources; they are modelled from the specification and are marked as such
in their doc comments.
-/

/-- Attribute values stored on a flow-state object: numbers, strings, or
lists of collaborator identities (the collection a foreach ranges over). -/
inductive Val where
  | vnat : Nat → Val
  | vstr : String → Val
  | vnames : List String → Val
  deriving DecidableEq, Repr

/-- Association-list lookup: the value of the first entry with the given
key, mirroring Python attribute lookup on a dict-backed object. -/
def alistGet {κ α : Type} [DecidableEq κ] (l : List (κ × α)) (k : κ) : Option α :=
  (l.find? (fun p => decide (p.1 = k))).map Prod.snd

/-- Association-list update: replace the value of an existing entry in
place, or append a new entry, mirroring Python setattr on an object dict
(and Python dict assignment, which keeps insertion order). -/
def alistSet {κ α : Type} [DecidableEq κ] : List (κ × α) → κ → α → List (κ × α)
  | [], k, v => [(k, v)]
  | p :: t, k, v => if p.1 = k then (k, v) :: t else p :: alistSet t k v

/-- A step function of a flow, reduced to the data the engine inspects:
its name and its two role markers. -/
structure Step where
  name : String
  aggregator_step : Bool
  collaborator_step : Bool
  deriving DecidableEq, Repr

/-- The mutable flow-state object of an FLSpec instance: its named user
attributes (the artifacts), the internal _foreach_methods list, and the
internal execute_next marker set at a transition point. -/
structure FLSpecState where
  attrs : List (String × Val)
  foreachMethods : List String
  executeNext : Option String
  deriving DecidableEq, Repr

def getAttr (s : FLSpecState) (n : String) : Option Val :=
  alistGet s.attrs n

def hasAttr (s : FLSpecState) (n : String) : Bool :=
  (getAttr s n).isSome

def setAttr (s : FLSpecState) (n : String) (v : Val) : FLSpecState :=
  { s with attrs := alistSet s.attrs n v }

/-- Modelled from the spec: generate_artifacts (imported by fl_spec.py from
openfl.experimental.utilities, not among the reviewed sources) is the
iterator over the named user attributes of a flow-state object; the spec
describes the Flow State as an object with arbitrary named attributes. -/
def generate_artifacts (s : FLSpecState) : List (String × Val) :=
  s.attrs

/-- Modelled from the spec: the Transition Classifier case
aggregator-to-collaborator (openfl.experimental.utilities, not among the
reviewed sources): the previous step is aggregator-only and the next step
is collaborator-capable. -/
def aggregator_to_collaborator (f parent_func : Step) : Bool :=
  parent_func.aggregator_step && !parent_func.collaborator_step && f.collaborator_step

/-- Modelled from the spec: the Transition Classifier case
collaborator-to-aggregator (openfl.experimental.utilities, not among the
reviewed sources): the previous step is collaborator-only and the next
step is aggregator-capable. -/
def collaborator_to_aggregator (f parent_func : Step) : Bool :=
  parent_func.collaborator_step && !parent_func.aggregator_step && f.aggregator_step

/-- Modelled from the spec: should_transfer (openfl.experimental.utilities,
not among the reviewed sources): a step is a transition point exactly when
the next function declares collaborator-to-aggregator transfer relative to
its parent. -/
def should_transfer (f parent_func : Step) : Bool :=
  collaborator_to_aggregator f parent_func

/-- The keyword arguments of a next call that the engine inspects: the
optional include list, the optional exclude list and the optional foreach
collection name. -/
structure Kwargs where
  includeOpt : Option (List String)
  excludeOpt : Option (List String)
  foreachOpt : Option String
  deriving DecidableEq, Repr

/-- The message of the configuration error raised when include and exclude
are both given. -/
def includeExcludeErrorMsg : String :=
  "include and exclude should not be used together"

/-- Modelled from the spec: filter_attributes (openfl.experimental.utilities,
not among the reviewed sources). Specifying both include and exclude is a
configuration error; an exclude list detaches each named attribute present
on the object; an include list keeps only the named attributes. Filtering
changes attribute presence only, never values. -/
def filter_attributes (s : FLSpecState) (kw : Kwargs) : Except String FLSpecState :=
  match kw.includeOpt, kw.excludeOpt with
  | some _, some _ => Except.error includeExcludeErrorMsg
  | some inc, none => Except.ok { s with attrs := s.attrs.filter (fun p => inc.contains p.1) }
  | none, some exc => Except.ok { s with attrs := s.attrs.filter (fun p => !(exc.contains p.1)) }
  | none, none => Except.ok s

/-- FLSpec._capture_instance_snapshot: when the kwargs carry an exclude or
an include list, return a deep copy of the state wrapped in a singleton
list, and an empty list otherwise (fl_spec.py lines 117-130). -/
def _capture_instance_snapshot (s : FLSpecState) (kw : Kwargs) : List FLSpecState :=
  if kw.excludeOpt.isSome || kw.includeOpt.isSome then [s] else []

/-- One pass of FLSpec.restore_instance_snapshot over a single backup: for
each artifact of the backup, copy it onto ctx only when ctx does not
already define that attribute (fl_spec.py lines 183-187). -/
def restoreFromBackup (ctx backup : FLSpecState) : FLSpecState :=
  (generate_artifacts backup).foldl
    (fun c p => if hasAttr c p.1 then c else setAttr c p.1 p.2) ctx

/-- FLSpec.restore_instance_snapshot: restore attributes from each backup
of the instance-snapshot list onto ctx, never overwriting an attribute
that ctx already defines. -/
def restore_instance_snapshot (ctx : FLSpecState) (instance_snapshot : List FLSpecState) :
    FLSpecState :=
  instance_snapshot.foldl restoreFromBackup ctx

/-- The value a snapshot list would contribute for an attribute: the value
held by the first snapshot that defines it. -/
def firstSnapVal (snaps : List FLSpecState) (n : String) : Option Val :=
  snaps.findSome? (fun b => getAttr b n)

/-- The clone registry FLSpec._clones: a mapping from collaborator identity
to its private state clone. -/
abbrev Registry := List (String × FLSpecState)

/-- FLSpec._create_clones: the Python dict comprehension
\x7bname: deepcopy(instance) for name in names\x7d, built left to right with
dict-update semantics (fl_spec.py lines 44-47). -/
def _create_clones (inst : FLSpecState) (names : List String) : Registry :=
  names.foldl (fun d name => alistSet d name inst) []

/-- FLSpec._is_at_transition_point: when the parent function is already in
_foreach_methods, append the next function name; when additionally
should_transfer holds, record execute_next and report a transition point
(fl_spec.py lines 132-146). Returns the updated state and the decision. -/
def _is_at_transition_point (s : FLSpecState) (f parent_func : Step) : FLSpecState × Bool :=
  if s.foreachMethods.contains parent_func.name then
    let s1 := { s with foreachMethods := s.foreachMethods ++ [f.name] }
    if should_transfer f parent_func then
      ({ s1 with executeNext := some f.name }, true)
    else (s1, false)
  else (s, false)

/-- Modelled from the spec: the collaborator-to-aggregator merge that ends
a foreach region is performed by the Runtime, which is an external
collaborator and not among the reviewed sources. Per the spec state
machine, the merge returns the flow to the NOT_IN_FOREACH state, with an
empty Foreach Method Set for the next region. -/
def mergeForeachRegion (s : FLSpecState) : FLSpecState :=
  { s with foreachMethods := [] }

/-- Copy every artifact of src onto dst, value-copied (the Python loop
setattr(clone, name, deepcopy(attr)) over generate_artifacts). -/
def copyArtifacts (dst src : FLSpecState) : FLSpecState :=
  (generate_artifacts src).foldl (fun d p => setAttr d p.1 p.2) dst

/-- The guard of the per-clone filter call in FLSpec.filter_exclude_include
(fl_spec.py lines 172-174): exclude is present and the clone has the first
excluded attribute, or include is present and the clone has the first
included attribute. Indexing an empty list raises, as in Python. -/
def cloneFilterGate (clone : FLSpecState) (kw : Kwargs) : Except String Bool :=
  match kw.excludeOpt with
  | some exc =>
    match exc.head? with
    | none => Except.error "IndexError"
    | some a =>
      if hasAttr clone a then Except.ok true
      else
        match kw.includeOpt with
        | some inc =>
          match inc.head? with
          | none => Except.error "IndexError"
          | some b => Except.ok (hasAttr clone b)
        | none => Except.ok false
  | none =>
    match kw.includeOpt with
    | some inc =>
      match inc.head? with
      | none => Except.error "IndexError"
      | some b => Except.ok (hasAttr clone b)
    | none => Except.ok false

/-- The loop body of FLSpec.filter_exclude_include for one collaborator
identity (fl_spec.py lines 169-179): set the input attribute to the
identity, apply filter_attributes when the gate holds, copy the (already
filtered) primary artifacts onto the clone, and propagate the Foreach
Method Set of the primary. -/
def processClone (selfS : FLSpecState) (kw : Kwargs) (col : String) (clone : FLSpecState) :
    Except String FLSpecState :=
  let c1 := setAttr clone "input" (Val.vstr col)
  match cloneFilterGate c1 kw with
  | Except.error e => Except.error e
  | Except.ok gate =>
    match (if gate then filter_attributes c1 kw else Except.ok c1) with
    | Except.error e => Except.error e
    | Except.ok c2 =>
      let c3 := copyArtifacts c2 selfS
      Except.ok { c3 with foreachMethods := selfS.foreachMethods }

/-- The loop of FLSpec.filter_exclude_include over the selected
collaborators, updating the registry entry of each processed clone. -/
def processAll (selfS : FLSpecState) (kw : Kwargs) : List String → Registry → Except String Registry
  | [], r => Except.ok r
  | col :: rest, r =>
    match alistGet r col with
    | none => Except.error "KeyError: clone"
    | some clone =>
      match processClone selfS kw col clone with
      | Except.error e => Except.error e
      | Except.ok c2 => processAll selfS kw rest (alistSet r col c2)

/-- FLSpec.filter_exclude_include (fl_spec.py lines 159-179): read the
foreach collection attribute from the primary state and process the clone
of every identity in it. -/
def filter_exclude_include (selfS : FLSpecState) (reg : Registry) (kw : Kwargs) :
    Except String Registry :=
  match kw.foreachOpt with
  | none => Except.error "KeyError: foreach"
  | some fa =>
    match getAttr selfS fa with
    | some (Val.vnames selected) => processAll selfS kw selected reg
    | _ => Except.error "TypeError: foreach attribute is not a collaborator list"

/-- The loop of FLSpec.get_clones over the selected collaborators
(fl_spec.py lines 197-205): set input, re-bind each clone attribute to a
deep copy of itself (a value no-op in the pure embedding) and propagate
the Foreach Method Set of the primary. The external MetaflowInterface
handle is not modelled. -/
def prepareAll : FLSpecState → List String → Registry → Except String Registry
  | _, [], r => Except.ok r
  | selfS, col :: rest, r =>
    match alistGet r col with
    | none => Except.error "KeyError: clone"
    | some clone =>
      let c1 := setAttr clone "input" (Val.vstr col)
      let c2 := copyArtifacts c1 c1
      prepareAll selfS rest (alistSet r col { c2 with foreachMethods := selfS.foreachMethods })

/-- FLSpec.get_clones (fl_spec.py lines 189-205): reset the registry,
create one clone per runtime collaborator, then prepare the clone of every
identity selected by the foreach collection attribute. -/
def get_clones (selfS : FLSpecState) (collaborators : List String) (kw : Kwargs) :
    Except String Registry :=
  let reg0 := _create_clones selfS collaborators
  match kw.foreachOpt with
  | none => Except.error "KeyError: foreach"
  | some fa =>
    match getAttr selfS fa with
    | some (Val.vnames selected) => prepareAll selfS selected reg0
    | _ => Except.error "TypeError: foreach attribute is not a collaborator list"

/-- The execute_task_args record set by FLSpec.next, reduced to its shape;
the states, clones, snapshot and kwargs it carries are exposed as the
other fields of NextOk. -/
inductive ExecTaskArgs where
  | federatedForeach (fName parentName : String)
  | federatedPlain (fName parentName : String)
  | localArgs (fName parentName : String)
  | notSet
  deriving DecidableEq, Repr

/-- The outcome of a completed FLSpec.next call: the primary state, the
clone registry, the captured aggregator-to-collaborator snapshot (none
when the transition is not aggregator-to-collaborator) and the recorded
execute_task_args shape. -/
structure NextOk where
  selfState : FLSpecState
  clones : Registry
  snapshot : Option (List FLSpecState)
  args : ExecTaskArgs
  deriving DecidableEq, Repr

/-- The snapshot taken by FLSpec.next (fl_spec.py lines 220-222): the
variable agg_to_collab_ss stays None unless the transition is
aggregator-to-collaborator, in which case _capture_instance_snapshot is
called. -/
def nextSnapshot (s : FLSpecState) (f parent_func : Step) (kw : Kwargs) :
    Option (List FLSpecState) :=
  if aggregator_to_collaborator f parent_func
  then some (_capture_instance_snapshot s kw) else none

/-- The clone-creation step of FLSpec.next (fl_spec.py lines 224-226):
under a FederatedRuntime on an aggregator-to-collaborator transition with
an empty registry, get_clones runs; otherwise the registry is untouched. -/
def nextCloneStep (s : FLSpecState) (reg : Registry) (f parent_func : Step)
    (runtimeName : String) (collaborators : List String) (kw : Kwargs) :
    Except String Registry :=
  if aggregator_to_collaborator f parent_func = true ∧
      runtimeName = "FederatedRuntime" ∧ reg = []
  then get_clones s collaborators kw
  else Except.ok reg

/-- The runtime-dependent tail of FLSpec.next (fl_spec.py lines 231-252),
run on the already filtered primary state s1. -/
def nextDispatch (s1 : FLSpecState) (reg1 : Registry) (f parent_func : Step)
    (runtimeName : String) (kw : Kwargs) (ss : Option (List FLSpecState)) :
    FLSpecState × Except String NextOk :=
  if runtimeName = "FederatedRuntime" then
    let s2 := if f.collaborator_step && !f.aggregator_step
      then { s1 with foreachMethods := s1.foreachMethods ++ [f.name] } else s1
    if kw.foreachOpt.isSome then
      match filter_exclude_include s2 reg1 kw with
      | Except.error e => (s2, Except.error e)
      | Except.ok reg2 =>
        (s2, Except.ok ⟨s2, reg2, ss, ExecTaskArgs.federatedForeach f.name parent_func.name⟩)
    else (s2, Except.ok ⟨s2, reg1, ss, ExecTaskArgs.federatedPlain f.name parent_func.name⟩)
  else if runtimeName = "LocalRuntime" then
    (s1, Except.ok ⟨s1, reg1, ss, ExecTaskArgs.localArgs f.name parent_func.name⟩)
  else (s1, Except.ok ⟨s1, reg1, ss, ExecTaskArgs.notSet⟩)

/-- FLSpec.next (fl_spec.py lines 207-252). The first component of the
result is the primary state as left by the call, also when an exception
escapes (Python mutates self in place); the second is the outcome or the
escaping exception. The checkpoint call of the LocalRuntime branch is an
external store without effect on the embedded state. -/
def next (s : FLSpecState) (reg : Registry) (f parent_func : Step)
    (runtimeName : String) (collaborators : List String) (kw : Kwargs) :
    FLSpecState × Except String NextOk :=
  let ss := nextSnapshot s f parent_func kw
  match nextCloneStep s reg f parent_func runtimeName collaborators kw with
  | Except.error e => (s, Except.error e)
  | Except.ok reg1 =>
    match filter_attributes s kw with
    | Except.error e => (s, Except.error e)
    | Except.ok s1 => nextDispatch s1 reg1 f parent_func runtimeName kw ss

/-- The errors FLSpec.run can raise: the distinguished SerializationError,
an executor exception re-raised unchanged, and the unsupported-runtime
exception. -/
inductive RunError where
  | serializationError (msg : String)
  | executorError (msg : String)
  | notImplemented (msg : String)
  deriving DecidableEq, Repr

/-- List containment of a contiguous sublist, the semantics of the Python
substring test (pat in s). -/
def containsSub {α : Type} [DecidableEq α] : List α → List α → Bool
  | pat, [] => pat.isEmpty
  | pat, a :: rest => pat.isPrefixOf (a :: rest) || containsSub pat rest

/-- Python substring containment (pat in s) on strings. -/
def containsSubstr (s pat : String) : Bool :=
  containsSub pat.toList s.toList

/-- The remediation text appended to a detected serialization failure
(fl_spec.py lines 84-93); the quotes of the Python literal around
single_process are not reproduced. -/
def serializationRemediation : String :=
  "\nA serialization error was encountered that could not" ++
  "\nbe handled by the ray backend." ++
  "\nTry rerunning the flow without ray as follows:\n" ++
  "\nLocalRuntime(...,backend=single_process)\n" ++
  "\n or for more information about the original error," ++
  "\nPlease see the official Ray documentation" ++
  "\nhttps://docs.ray.io/en/releases-2.2.0/ray-core/                        objects/serialization.html"

/-- The final loop of the LocalRuntime branch of FLSpec.run: apply the
final attributes returned by the runtime onto the primary state
(fl_spec.py lines 97-98). -/
def applyFinalAttrs (s : FLSpecState) (finals : List (String × Val)) : FLSpecState :=
  finals.foldl (fun st p => setAttr st p.1 p.2) s

/-- FLSpec.run (fl_spec.py lines 59-102). The runtime is external: its
execute_task is a parameter returning the final attributes or the message
of the exception it raises. MetaflowInterface creation, run-id creation
and private-attribute initialization are external collaborators without
effect on the embedded state. The FederatedRuntime branch of the source is
a bare pass statement. -/
def run (s : FLSpecState) (reg : Registry) (runtimeName : String)
    (collaborators : List String)
    (execute_task : FLSpecState → Except String (List (String × Val))) :
    Except RunError (FLSpecState × Registry) :=
  if runtimeName = "LocalRuntime" then
    let s1 := { s with foreachMethods := [] }
    let reg1 := _create_clones s1 collaborators
    match execute_task s1 with
    | Except.error e =>
      if containsSubstr e "cannot pickle" || containsSubstr e "Failed to unpickle"
      then Except.error (RunError.serializationError (e ++ serializationRemediation))
      else Except.error (RunError.executorError e)
    | Except.ok finals => Except.ok (applyFinalAttrs s1 finals, reg1)
  else if runtimeName = "FederatedRuntime" then
    Except.ok (s, reg)
  else Except.error (RunError.notImplemented "Runtime not implemented")

/-
Reference-semantics model, used for the object-identity claim. Each
_foreach_methods list is an object on an explicit heap, addressed by a
reference held in the owning flow-state object; deepcopy allocates a
fresh reference with copied contents, while plain Python assignment
copies the reference itself.
-/

/-- The heap of Python list objects backing _foreach_methods fields. -/
abbrev Heap := List (Nat × List String)

/-- A flow-state object under reference semantics: value-copied named
attributes plus the reference of its _foreach_methods list object. -/
structure RObj where
  attrs : List (String × Val)
  fmRef : Nat
  deriving DecidableEq, Repr

/-- The whole engine state under reference semantics: the heap, the
primary flow-state object and the clone registry. -/
structure RSys where
  heap : Heap
  primary : RObj
  clones : List (String × RObj)
  deriving DecidableEq, Repr

def heapKeys (h : Heap) : List Nat := h.map Prod.fst

/-- A reference unused by any object of the heap. -/
def freshRef (h : Heap) : Nat := (heapKeys h).foldl max 0 + 1

def heapGet (h : Heap) (r : Nat) : Option (List String) := alistGet h r

def heapSet (h : Heap) (r : Nat) (l : List String) : Heap := alistSet h r l

/-- FLSpec._create_clones under reference semantics: one deepcopy of the
primary per name, each allocating a fresh list object for the copied
_foreach_methods contents; dict-update semantics on the registry. -/
def cloneBuild (prim : RObj) : List String → Heap → List (String × RObj) →
    Heap × List (String × RObj)
  | [], h, reg => (h, reg)
  | name :: rest, h, reg =>
    let r := freshRef h
    let contents := (heapGet h prim.fmRef).getD []
    cloneBuild prim rest (h ++ [(r, contents)])
      (alistSet reg name { attrs := prim.attrs, fmRef := r })

/-- FLSpec._create_clones under reference semantics, replacing the
registry contents. -/
def createClonesR (sys : RSys) (names : List String) : RSys :=
  let hr := cloneBuild sys.primary names sys.heap []
  { sys with heap := hr.1, clones := hr.2 }

/-- The _foreach_methods contents currently readable through the primary. -/
def primaryFm (sys : RSys) : Option (List String) :=
  heapGet sys.heap sys.primary.fmRef

/-- The _foreach_methods contents currently readable through a clone. -/
def cloneFm (sys : RSys) (c : String) : Option (List String) :=
  (alistGet sys.clones c).bind (fun o => heapGet sys.heap o.fmRef)

/-- An in-place append to the list object at a reference, the Python
list.append mutation. -/
def fmAppendAt (sys : RSys) (r : Nat) (x : String) : RSys :=
  { sys with heap := heapSet sys.heap r (((heapGet sys.heap r).getD []) ++ [x]) }

/-- Mutate the Foreach Method Set of one clone in place. -/
def appendFmOfClone (sys : RSys) (c : String) (x : String) : RSys :=
  match alistGet sys.clones c with
  | some o => fmAppendAt sys o.fmRef x
  | none => sys

/-- Mutate an ordinary attribute of one clone. -/
def setAttrOfClone (sys : RSys) (c : String) (n : String) (v : Val) : RSys :=
  match alistGet sys.clones c with
  | some o =>
    { sys with clones := alistSet sys.clones c { o with attrs := alistSet o.attrs n v } }
  | none => sys

/-- The loop of FLSpec.get_clones under reference semantics (fl_spec.py
lines 197-204): set input, re-bind each clone attribute to a deep copy of
itself, then assign the _foreach_methods list OF THE PRIMARY to the clone
by reference, exactly as the Python line
clone._foreach_methods = self._foreach_methods does. -/
def prepareAllR : RSys → List String → Option RSys
  | sys, [] => some sys
  | sys, col :: rest =>
    match alistGet sys.clones col with
    | none => none
    | some clone =>
      let c1 : RObj := { clone with attrs := alistSet clone.attrs "input" (Val.vstr col) }
      let c2 : RObj := { c1 with fmRef := sys.primary.fmRef }
      prepareAllR { sys with clones := alistSet sys.clones col c2 } rest

/-- FLSpec.get_clones under reference semantics (fl_spec.py lines
189-205). -/
def get_clonesR (sys : RSys) (collaborators : List String) (kw : Kwargs) : Option RSys :=
  let sys1 := createClonesR sys collaborators
  match kw.foreachOpt with
  | none => none
  | some fa =>
    match alistGet sys1.primary.attrs fa with
    | some (Val.vnames selected) => prepareAllR sys1 selected
    | _ => none

/- Concrete states used by witnesses and counterexamples. -/

/-- A primary state with one ordinary attribute and a collaborator list. -/
def exPrimary : FLSpecState :=
  ⟨[("x", Val.vnat 1), ("collabs", Val.vnames ["c1", "c2"])], [], none⟩

/-- An aggregator-only step. -/
def exAggStep : Step := ⟨"start", true, false⟩

/-- A second aggregator-only step. -/
def exAggStep2 : Step := ⟨"finish", true, false⟩

/-- A collaborator-only step. -/
def exCollabStep : Step := ⟨"train", false, true⟩

/-- An aggregator-capable join step. -/
def exJoinStep : Step := ⟨"join", true, false⟩

/-- A primary state with one ordinary attribute only. -/
def exPrimaryX : FLSpecState := ⟨[("x", Val.vnat 1)], [], none⟩

/-- Kwargs carrying only exclude=[x]. -/
def exKwExcludeX : Kwargs := ⟨none, some ["x"], none⟩

/-- Kwargs carrying include=[a] and exclude=[b] together. -/
def exKwBoth : Kwargs := ⟨some ["a"], some ["b"], none⟩

/-- Empty kwargs. -/
def exKwNone : Kwargs := ⟨none, none, none⟩

/-- A primary state that has already been filtered (attributes a and b are
gone) and names one collaborator in its foreach collection. -/
def exSelfC9 : FLSpecState := ⟨[("collabs", Val.vnames ["c1"])], [], none⟩

/-- A registry whose only clone carries attribute b but not attribute a. -/
def exRegC9 : Registry := [("c1", ⟨[("b", Val.vnat 2)], [], none⟩)]

/-- Kwargs with exclude=[a, b] and foreach=collabs. -/
def exKwC9 : Kwargs := ⟨none, some ["a", "b"], some "collabs"⟩

/-- A reference-semantics system: one heap cell (reference 0) holding the
empty _foreach_methods list of the primary, which names two collaborators
in its foreach collection. -/
def exRSys : RSys := ⟨[(0, [])], ⟨[("collabs", Val.vnames ["c1", "c2"])], 0⟩, []⟩

/-
Theorems. Association-list lemmas first, then one theorem per claim with
its witness or counterexample.
-/

theorem alistGet_nil {κ α : Type} [DecidableEq κ] (k : κ) :
    alistGet ([] : List (κ × α)) k = none := rfl

theorem alistGet_cons {κ α : Type} [DecidableEq κ] (p : κ × α) (t : List (κ × α)) (k : κ) :
    alistGet (p :: t) k = if p.1 = k then some p.2 else alistGet t k := by
  by_cases h : p.1 = k <;> simp [alistGet, List.find?, h]

theorem alistGet_alistSet_self {κ α : Type} [DecidableEq κ]
    (l : List (κ × α)) (k : κ) (v : α) : alistGet (alistSet l k v) k = some v := by
  induction l with
  | nil => simp [alistSet, alistGet_cons]
  | cons p t ih =>
    by_cases h : p.1 = k
    · simp [alistSet, h, alistGet_cons]
    · simp [alistSet, h, alistGet_cons, ih]

theorem alistGet_alistSet_ne {κ α : Type} [DecidableEq κ]
    (l : List (κ × α)) (k k' : κ) (v : α) (hne : k ≠ k') :
    alistGet (alistSet l k v) k' = alistGet l k' := by
  induction l with
  | nil => simp [alistSet, alistGet_cons, alistGet_nil, hne]
  | cons p t ih =>
    by_cases h : p.1 = k
    · simp [alistSet, h, alistGet_cons, hne]
    · simp [alistSet, h, alistGet_cons, ih]

theorem mem_alistSet {κ α : Type} [DecidableEq κ]
    (l : List (κ × α)) (k : κ) (v : α) (q : κ × α) (hq : q ∈ alistSet l k v) :
    q = (k, v) ∨ q ∈ l := by
  induction l with
  | nil => simp [alistSet] at hq; simp [hq]
  | cons p t ih =>
    by_cases h : p.1 = k
    · simp [alistSet, h] at hq
      rcases hq with hq | hq
      · exact Or.inl hq
      · exact Or.inr (List.mem_cons_of_mem _ hq)
    · simp [alistSet, h] at hq
      rcases hq with hq | hq
      · exact Or.inr (by simp [hq])
      · rcases ih hq with h1 | h1
        · exact Or.inl h1
        · exact Or.inr (List.mem_cons_of_mem _ h1)

theorem alistGet_mem {κ α : Type} [DecidableEq κ]
    (l : List (κ × α)) (k : κ) (v : α) (h : alistGet l k = some v) : (k, v) ∈ l := by
  induction l with
  | nil => simp [alistGet_nil] at h
  | cons p t ih =>
    rw [alistGet_cons] at h
    by_cases hk : p.1 = k
    · simp [hk] at h
      cases p
      simp_all
    · simp [hk] at h
      exact List.mem_cons_of_mem _ (ih h)

theorem alistGet_eq_none_iff {κ α : Type} [DecidableEq κ] (l : List (κ × α)) (k : κ) :
    alistGet l k = none ↔ ∀ p ∈ l, p.1 ≠ k := by
  induction l with
  | nil => simp [alistGet_nil]
  | cons p t ih =>
    rw [alistGet_cons]
    by_cases hk : p.1 = k <;> simp [hk, ih]

theorem alistGet_filter_none {κ α : Type} [DecidableEq κ]
    (l : List (κ × α)) (k : κ) (pred : κ × α → Bool)
    (h : ∀ p : κ × α, p.1 = k → pred p = false) :
    alistGet (l.filter pred) k = none := by
  rw [alistGet_eq_none_iff]
  intro p hp hk
  have := List.of_mem_filter hp
  rw [h p hk] at this
  exact Bool.false_ne_true this

theorem alistGet_filter_keep {κ α : Type} [DecidableEq κ]
    (l : List (κ × α)) (k : κ) (pred : κ × α → Bool)
    (h : ∀ p : κ × α, p.1 = k → pred p = true) :
    alistGet (l.filter pred) k = alistGet l k := by
  induction l with
  | nil => simp
  | cons p t ih =>
    by_cases hk : p.1 = k
    · rw [List.filter_cons_of_pos (h p hk)]
      rw [alistGet_cons, alistGet_cons, if_pos hk, if_pos hk]
    · cases hpred : pred p
      · rw [List.filter_cons_of_neg (by simp [hpred])]
        rw [ih, alistGet_cons, if_neg hk]
      · rw [List.filter_cons_of_pos hpred]
        rw [alistGet_cons, alistGet_cons, if_neg hk, if_neg hk, ih]

theorem getAttr_setAttr_self (s : FLSpecState) (n : String) (v : Val) :
    getAttr (setAttr s n v) n = some v :=
  alistGet_alistSet_self s.attrs n v

theorem getAttr_setAttr_ne (s : FLSpecState) (n m : String) (v : Val) (h : n ≠ m) :
    getAttr (setAttr s n v) m = getAttr s m :=
  alistGet_alistSet_ne s.attrs n m v h

theorem restoreFromBackup_foldl_getAttr (l : List (String × Val)) :
    ∀ (c : FLSpecState) (n : String),
    getAttr (l.foldl (fun c p => if hasAttr c p.1 then c else setAttr c p.1 p.2) c) n =
      match getAttr c n with
      | some v => some v
      | none => alistGet l n := by
  induction l with
  | nil =>
    intro c n
    cases h : getAttr c n <;> simp [alistGet_nil, h]
  | cons p t ih =>
    intro c n
    rw [List.foldl_cons]
    by_cases hc : hasAttr c p.1
    · rw [if_pos hc, ih]
      by_cases hpn : p.1 = n
      · subst hpn
        rcases hv : getAttr c p.1 with _ | v
        · rw [hasAttr, hv] at hc; simp at hc
        · simp [hv]
      · rw [alistGet_cons, if_neg hpn]
    · rw [if_neg hc]
      rw [ih]
      by_cases hpn : p.1 = n
      · subst hpn
        have hnone : getAttr c p.1 = none := by
          rcases hv : getAttr c p.1 with _ | v
          · rfl
          · rw [hasAttr, hv] at hc; simp at hc
        rw [getAttr_setAttr_self, hnone, alistGet_cons, if_pos rfl]
      · rw [getAttr_setAttr_ne c p.1 n p.2 hpn, alistGet_cons, if_neg hpn]

theorem restoreFromBackup_getAttr (ctx backup : FLSpecState) (n : String) :
    getAttr (restoreFromBackup ctx backup) n =
      match getAttr ctx n with
      | some v => some v
      | none => getAttr backup n := by
  rw [restoreFromBackup, restoreFromBackup_foldl_getAttr]
  rfl

/-- C1. restore_instance_snapshot never overwrites an attribute already
defined on the target, and an attribute absent on the target takes the
value of the first snapshot defining it; in particular every attribute
present on a snapshot ends up present on the result, and every attribute
already on the target keeps exactly its old value. -/
theorem restore_keeps_target_and_fills_absent
    (ctx : FLSpecState) (snaps : List FLSpecState) (n : String) :
    getAttr (restore_instance_snapshot ctx snaps) n =
      match getAttr ctx n with
      | some v => some v
      | none => firstSnapVal snaps n := by
  rw [restore_instance_snapshot, firstSnapVal]
  induction snaps generalizing ctx with
  | nil =>
    cases h : getAttr ctx n <;> simp [h]
  | cons b t ih =>
    rw [List.foldl_cons, ih, restoreFromBackup_getAttr, List.findSome?_cons]
    cases hc : getAttr ctx n <;> cases hb : getAttr b n <;> simp

theorem alistSet_keys_notmem {κ α : Type} [DecidableEq κ]
    (l : List (κ × α)) (k : κ) (v : α) (h : k ∉ l.map Prod.fst) :
    (alistSet l k v).map Prod.fst = l.map Prod.fst ++ [k] := by
  induction l with
  | nil => simp [alistSet]
  | cons p t ih =>
    simp only [List.map_cons, List.mem_cons] at h
    push_neg at h
    rw [alistSet, if_neg (fun hpk => h.1 hpk.symm)]
    simp [ih h.2]

theorem create_clones_fold_keys (inst : FLSpecState) :
    ∀ (names : List String) (d : Registry), names.Nodup →
    (∀ n ∈ names, n ∉ d.map Prod.fst) →
    (names.foldl (fun d name => alistSet d name inst) d).map Prod.fst =
      d.map Prod.fst ++ names := by
  intro names
  induction names with
  | nil => intro d _ _; simp
  | cons n rest ih =>
    intro d hnd hdisj
    rw [List.foldl_cons]
    have hn : n ∉ d.map Prod.fst := hdisj n (List.mem_cons_self n rest)
    have hrest : ∀ m ∈ rest, m ∉ (alistSet d n inst).map Prod.fst := by
      intro m hm
      rw [alistSet_keys_notmem d n inst hn]
      intro hmem
      rcases List.mem_append.mp hmem with h1 | h1
      · exact hdisj m (List.mem_cons_of_mem _ hm) h1
      · have hmn : m = n := by simpa using h1
        exact (List.nodup_cons.mp hnd).1 (hmn ▸ hm)
    rw [ih (alistSet d n inst) (List.nodup_cons.mp hnd).2 hrest]
    rw [alistSet_keys_notmem d n inst hn]
    simp

theorem create_clones_fold_vals (inst : FLSpecState) :
    ∀ (names : List String) (d : Registry), (∀ p ∈ d, p.2 = inst) →
    ∀ p ∈ names.foldl (fun d name => alistSet d name inst) d, p.2 = inst := by
  intro names
  induction names with
  | nil => intro d hd; exact hd
  | cons n rest ih =>
    intro d hd
    rw [List.foldl_cons]
    refine ih (alistSet d n inst) ?_
    intro p hp
    rcases mem_alistSet d n inst p hp with h | h
    · rw [h]
    · exact hd p h

/-- C5 counterexample. On a collaborator-identity list with a repeated
identity the Python dict comprehension collapses the duplicates, so the
registry does not hold one clone per list element: two identities yield a
single clone. -/
theorem create_clones_duplicate_counterexample :
    (_create_clones exPrimary ["a", "a"]).length ≠ (["a", "a"] : List String).length := by
  decide

/-- C5 amended. For every primary state and every duplicate-free
collaborator-identity list C, _create_clones produces a registry whose
keys are exactly the identities of C in order (hence with one clone per
identity), each clone deep-equal to the primary state at creation time. -/
theorem create_clones_keys_and_values (inst : FLSpecState) (names : List String)
    (h : names.Nodup) :
    (_create_clones inst names).map Prod.fst = names ∧
      ∀ p ∈ _create_clones inst names, p.2 = inst := by
  constructor
  · have := create_clones_fold_keys inst names [] h (by intro n _; simp)
    simpa [_create_clones] using this
  · intro p hp
    exact create_clones_fold_vals inst names [] (by intro q hq; simp at hq) p hp

/-- C5 witness. The amended theorem evaluated on the two-identity list. -/
theorem create_clones_keys_and_values_witness :
    (_create_clones exPrimary ["c1", "c2"]).map Prod.fst = ["c1", "c2"] ∧
      ∀ p ∈ _create_clones exPrimary ["c1", "c2"], p.2 = exPrimary :=
  create_clones_keys_and_values exPrimary ["c1", "c2"] (by decide)

/-- C4. When _is_at_transition_point reports a transition point, the
transition is collaborator-to-aggregator and the parent was inside the
foreach region; the merge that the runtime then performs (modelled from
the spec state machine) leaves the Foreach Method Set empty, and from that
state no step is inside a foreach region any more, so the next region
starts from NOT_IN_FOREACH. -/
theorem transition_point_merge_resets_foreach
    (s : FLSpecState) (f parent_func : Step) (s1 : FLSpecState)
    (h : _is_at_transition_point s f parent_func = (s1, true)) :
    collaborator_to_aggregator f parent_func = true ∧
      parent_func.name ∈ s.foreachMethods ∧
      (mergeForeachRegion s1).foreachMethods = [] ∧
      ∀ g q : Step, (_is_at_transition_point (mergeForeachRegion s1) g q).2 = false := by
  rw [_is_at_transition_point] at h
  by_cases hc : s.foreachMethods.contains parent_func.name
  · rw [if_pos hc] at h
    by_cases ht : should_transfer f parent_func
    · rw [if_pos ht] at h
      refine ⟨ht, by simpa using hc, ?_, ?_⟩
      · rfl
      · intro g q
        simp [_is_at_transition_point, mergeForeachRegion]
    · rw [if_neg ht] at h
      exact absurd (congrArg Prod.snd h) (by simp)
  · rw [if_neg hc] at h
    exact absurd (congrArg Prod.snd h) (by simp)

/-- C4 witness. A concrete collaborator-only parent inside the region and
an aggregator-capable join step: the transition point fires and the merged
state has an empty Foreach Method Set. -/
theorem transition_point_merge_resets_foreach_witness :
    collaborator_to_aggregator exJoinStep exCollabStep = true ∧
      exCollabStep.name ∈ (⟨[], ["train"], none⟩ : FLSpecState).foreachMethods ∧
      (mergeForeachRegion ⟨[], ["train", "join"], some "join"⟩).foreachMethods = [] := by
  have h := transition_point_merge_resets_foreach ⟨[], ["train"], none⟩ exJoinStep exCollabStep
    ⟨[], ["train", "join"], some "join"⟩ (by decide)
  exact ⟨h.1, h.2.1, h.2.2.1⟩

/-- C8. A task-execution failure during a LocalRuntime run is re-raised as
the distinguished SerializationError carrying the original message plus
the remediation text exactly when the message contains one of the two
known serialization-failure substrings; any other failure is re-raised
unchanged. -/
theorem run_serialization_classification
    (s : FLSpecState) (reg : Registry) (cols : List String) (e : String) :
    ((containsSubstr e "cannot pickle" || containsSubstr e "Failed to unpickle") = true →
      run s reg "LocalRuntime" cols (fun _ => Except.error e) =
        Except.error (RunError.serializationError (e ++ serializationRemediation))) ∧
    ((containsSubstr e "cannot pickle" || containsSubstr e "Failed to unpickle") = false →
      run s reg "LocalRuntime" cols (fun _ => Except.error e) =
        Except.error (RunError.executorError e)) := by
  constructor <;> intro h <;> simp [run, h]

/-- C8 witness. One failure message matching a known substring and one
matching none, classified accordingly. -/
theorem run_serialization_classification_witness :
    run exPrimary [] "LocalRuntime" [] (fun _ => Except.error "foo cannot pickle bar") =
      Except.error (RunError.serializationError ("foo cannot pickle bar" ++ serializationRemediation)) ∧
    run exPrimary [] "LocalRuntime" [] (fun _ => Except.error "boom") =
      Except.error (RunError.executorError "boom") :=
  ⟨(run_serialization_classification exPrimary [] [] "foo cannot pickle bar").1 (by decide),
   (run_serialization_classification exPrimary [] [] "boom").2 (by decide)⟩

/-- C7 counterexample. Under a FederatedRuntime, run neither applies the
final attributes the runtime would return nor raises: the primary state is
returned untouched (attribute y is not applied), and the result does not
even depend on the task executor. -/
theorem run_federated_noop_counterexample :
    run exPrimary [] "FederatedRuntime" [] (fun _ => Except.ok [("y", Val.vnat 1)]) =
      Except.ok (exPrimary, []) ∧
    hasAttr exPrimary "y" = false ∧
    run exPrimary [] "FederatedRuntime" [] (fun _ => Except.ok [("y", Val.vnat 1)]) =
      run exPrimary [] "FederatedRuntime" [] (fun _ => Except.error "boom") :=
  ⟨rfl, rfl, rfl⟩

/-- C7 amended. Under a LocalRuntime, run either terminates with the final
attributes returned by the runtime applied to the primary state or raises
an error; under a FederatedRuntime, run returns silently without invoking
the runtime or modifying state (the source branch is a bare pass); any
other runtime kind raises the fatal Runtime-not-implemented error. -/
theorem run_local_applies_federated_noop_other_raises
    (s : FLSpecState) (reg : Registry) (cols : List String) (rtName : String)
    (exec : FLSpecState → Except String (List (String × Val))) :
    (∀ finals, exec { s with foreachMethods := [] } = Except.ok finals →
      run s reg "LocalRuntime" cols exec =
        Except.ok (applyFinalAttrs { s with foreachMethods := [] } finals,
          _create_clones { s with foreachMethods := [] } cols)) ∧
    (∀ e, exec { s with foreachMethods := [] } = Except.error e →
      ∃ er, run s reg "LocalRuntime" cols exec = Except.error er) ∧
    run s reg "FederatedRuntime" cols exec = Except.ok (s, reg) ∧
    (rtName ≠ "LocalRuntime" → rtName ≠ "FederatedRuntime" →
      run s reg rtName cols exec =
        Except.error (RunError.notImplemented "Runtime not implemented")) := by
  refine ⟨?_, ?_, ?_, ?_⟩
  · intro finals h
    simp [run, h]
  · intro e h
    by_cases hc : (containsSubstr e "cannot pickle" || containsSubstr e "Failed to unpickle") = true
    · exact ⟨RunError.serializationError (e ++ serializationRemediation), by simp [run, h, hc]⟩
    · refine ⟨RunError.executorError e, ?_⟩
      simp only [Bool.not_eq_true] at hc
      simp [run, h, hc]
  · simp [run]
  · intro h1 h2
    simp [run, h1, h2]

/-- C7 witness. The amended theorem evaluated on a successful local run, a
failing local run, a federated run and an unrecognized runtime kind. -/
theorem run_local_applies_federated_noop_other_raises_witness :
    run exPrimary [] "LocalRuntime" [] (fun _ => Except.ok [("y", Val.vnat 2)]) =
      Except.ok (applyFinalAttrs { exPrimary with foreachMethods := [] } [("y", Val.vnat 2)],
        _create_clones { exPrimary with foreachMethods := [] } []) ∧
    (∃ er, run exPrimary [] "LocalRuntime" [] (fun _ => Except.error "boom") =
      Except.error er) ∧
    run exPrimary [] "FederatedRuntime" [] (fun _ => Except.ok []) =
      Except.ok (exPrimary, []) ∧
    run exPrimary [] "OtherRuntime" [] (fun _ => Except.ok []) =
      Except.error (RunError.notImplemented "Runtime not implemented") :=
  ⟨(run_local_applies_federated_noop_other_raises exPrimary [] [] "OtherRuntime"
      (fun _ => Except.ok [("y", Val.vnat 2)])).1 [("y", Val.vnat 2)] rfl,
   (run_local_applies_federated_noop_other_raises exPrimary [] [] "OtherRuntime"
      (fun _ => Except.error "boom")).2.1 "boom" rfl,
   (run_local_applies_federated_noop_other_raises exPrimary [] [] "OtherRuntime"
      (fun _ => Except.ok [])).2.2.1,
   (run_local_applies_federated_noop_other_raises exPrimary [] [] "OtherRuntime"
      (fun _ => Except.ok [])).2.2.2 (by decide) (by decide)⟩

theorem filter_attributes_ok_foreachMethods
    (s : FLSpecState) (kw : Kwargs) (s1 : FLSpecState)
    (h : filter_attributes s kw = Except.ok s1) :
    s1.foreachMethods = s.foreachMethods := by
  rcases kw with ⟨i, e, fa⟩
  rcases i with _ | inc <;> rcases e with _ | exc <;>
    simp only [filter_attributes] at h <;>
    first
      | exact Except.noConfusion h
      | (injection h with h; rw [← h])

theorem nextDispatch_ok
    (s1 : FLSpecState) (reg1 : Registry) (f parent_func : Step)
    (runtimeName : String) (kw : Kwargs) (ss : Option (List FLSpecState)) (out : NextOk)
    (h : (nextDispatch s1 reg1 f parent_func runtimeName kw ss).2 = Except.ok out) :
    out.selfState =
      (if runtimeName = "FederatedRuntime" then
        (if f.collaborator_step && !f.aggregator_step
          then { s1 with foreachMethods := s1.foreachMethods ++ [f.name] } else s1)
      else s1) ∧
    out.snapshot = ss := by
  by_cases hrt : runtimeName = "FederatedRuntime"
  · rw [nextDispatch, if_pos hrt] at h
    rw [if_pos hrt]
    by_cases hfe : kw.foreachOpt.isSome
    · rw [if_pos hfe] at h
      rcases hx : filter_exclude_include
          (if f.collaborator_step && !f.aggregator_step
            then { s1 with foreachMethods := s1.foreachMethods ++ [f.name] } else s1)
          reg1 kw with e | reg2
      · rw [hx] at h
        exact absurd h (by simp)
      · rw [hx] at h
        simp only at h
        injection h with h
        rw [← h]
        exact ⟨rfl, rfl⟩
    · rw [if_neg hfe] at h
      simp only at h
      injection h with h
      rw [← h]
      exact ⟨rfl, rfl⟩
  · rw [nextDispatch, if_neg hrt] at h
    rw [if_neg hrt]
    by_cases hlc : runtimeName = "LocalRuntime"
    · rw [if_pos hlc] at h
      injection h with h
      rw [← h]
      exact ⟨rfl, rfl⟩
    · rw [if_neg hlc] at h
      injection h with h
      rw [← h]
      exact ⟨rfl, rfl⟩

theorem next_ok_decomposition
    (s : FLSpecState) (reg : Registry) (f parent_func : Step)
    (runtimeName : String) (collaborators : List String) (kw : Kwargs) (out : NextOk)
    (h : (next s reg f parent_func runtimeName collaborators kw).2 = Except.ok out) :
    ∃ reg1 s1,
      nextCloneStep s reg f parent_func runtimeName collaborators kw = Except.ok reg1 ∧
      filter_attributes s kw = Except.ok s1 ∧
      (nextDispatch s1 reg1 f parent_func runtimeName kw
        (nextSnapshot s f parent_func kw)).2 = Except.ok out := by
  rw [next] at h
  rcases hcs : nextCloneStep s reg f parent_func runtimeName collaborators kw with e | reg1
  · rw [hcs] at h
    exact absurd h (by simp)
  · rw [hcs] at h
    rcases hf : filter_attributes s kw with e | s1
    · rw [hf] at h
      exact absurd h (by simp)
    · rw [hf] at h
      exact ⟨reg1, s1, rfl, rfl, h⟩

/-- C10. Under a FederatedRuntime, a completing next call appends the name
of f to the Foreach Method Set exactly when f is collaborator-only,
independently of the current contents of the set (in particular of whether
the calling step is already in it); otherwise the set is left unchanged,
so aggregator-capable steps are never added by this path. -/
theorem next_federated_appends_iff_collaborator_only
    (s : FLSpecState) (reg : Registry) (f parent_func : Step)
    (collaborators : List String) (kw : Kwargs) (out : NextOk)
    (h : (next s reg f parent_func "FederatedRuntime" collaborators kw).2 = Except.ok out) :
    out.selfState.foreachMethods =
      (if f.collaborator_step && !f.aggregator_step
        then s.foreachMethods ++ [f.name] else s.foreachMethods) := by
  rcases next_ok_decomposition s reg f parent_func "FederatedRuntime" collaborators kw out h
    with ⟨reg1, s1, _, hf, hd⟩
  have hfm := filter_attributes_ok_foreachMethods s kw s1 hf
  have hout := (nextDispatch_ok s1 reg1 f parent_func "FederatedRuntime" kw
    (nextSnapshot s f parent_func kw) out hd).1
  rw [if_pos rfl] at hout
  by_cases hb : (f.collaborator_step && !f.aggregator_step) = true
  · rw [if_pos hb] at hout
    rw [if_pos hb, hout, hfm]
  · rw [if_neg hb] at hout
    rw [if_neg hb, hout, hfm]

/-- C10 witness. A collaborator-only step under a FederatedRuntime on a
clean state: its name is appended to the empty Foreach Method Set. -/
theorem next_federated_appends_iff_collaborator_only_witness :
    (NextOk.mk ⟨[("x", Val.vnat 1)], ["train"], none⟩ [] none
        (ExecTaskArgs.federatedPlain "train" "start")).selfState.foreachMethods =
      (if exCollabStep.collaborator_step && !exCollabStep.aggregator_step
        then exPrimaryX.foreachMethods ++ [exCollabStep.name]
        else exPrimaryX.foreachMethods) :=
  next_federated_appends_iff_collaborator_only exPrimaryX [] exCollabStep
    (Step.mk "start" true true) [] exKwNone
    (NextOk.mk ⟨[("x", Val.vnat 1)], ["train"], none⟩ [] none
      (ExecTaskArgs.federatedPlain "train" "start"))
    (by rfl)

/-- C3 counterexample. A same-party transition (aggregator-only to
aggregator-only) whose kwargs carry an exclude list: the next call
completes, yet no snapshot list is captured at all (the snapshot stays
None), instead of the length-1 snapshot list the claim requires. -/
theorem next_same_party_no_snapshot_counterexample :
    ((next exPrimaryX [] exAggStep2 exAggStep "LocalRuntime" [] exKwExcludeX).2.map
      NextOk.snapshot) = Except.ok none := by
  rfl

/-- C3 amended. A completing next call captures a snapshot list only on an
aggregator-to-collaborator transition: there the captured list is exactly
_capture_instance_snapshot of the pre-filter state, whose length is 1 when
the kwargs carry an include or exclude list and 0 otherwise; on any other
transition no snapshot list is captured (the snapshot stays None). -/
theorem next_snapshot_iff_agg_to_collab
    (s : FLSpecState) (reg : Registry) (f parent_func : Step)
    (runtimeName : String) (collaborators : List String) (kw : Kwargs) (out : NextOk)
    (h : (next s reg f parent_func runtimeName collaborators kw).2 = Except.ok out) :
    out.snapshot =
      (if aggregator_to_collaborator f parent_func
        then some (_capture_instance_snapshot s kw) else none) ∧
    (_capture_instance_snapshot s kw).length =
      (if kw.excludeOpt.isSome || kw.includeOpt.isSome then 1 else 0) := by
  constructor
  · rcases next_ok_decomposition s reg f parent_func runtimeName collaborators kw out h
      with ⟨reg1, s1, _, _, hd⟩
    have hss := (nextDispatch_ok s1 reg1 f parent_func runtimeName kw
      (nextSnapshot s f parent_func kw) out hd).2
    rw [hss, nextSnapshot]
  · rw [_capture_instance_snapshot]
    by_cases hk : (kw.excludeOpt.isSome || kw.includeOpt.isSome) = true
    · rw [if_pos hk, if_pos hk]
      rfl
    · rw [if_neg hk, if_neg hk]
      rfl

/-- C3 witness. An aggregator-to-collaborator transition with an exclude
list: the completing call carries the singleton snapshot of the pre-filter
state. -/
theorem next_snapshot_iff_agg_to_collab_witness :
    (NextOk.mk ⟨[], [], none⟩ [] (some [exPrimaryX])
        (ExecTaskArgs.localArgs "train" "start")).snapshot =
      (if aggregator_to_collaborator exCollabStep exAggStep
        then some (_capture_instance_snapshot exPrimaryX exKwExcludeX) else none) ∧
    (_capture_instance_snapshot exPrimaryX exKwExcludeX).length =
      (if exKwExcludeX.excludeOpt.isSome || exKwExcludeX.includeOpt.isSome then 1 else 0) :=
  next_snapshot_iff_agg_to_collab exPrimaryX [] exCollabStep exAggStep "LocalRuntime" []
    exKwExcludeX
    (NextOk.mk ⟨[], [], none⟩ [] (some [exPrimaryX])
      (ExecTaskArgs.localArgs "train" "start"))
    (by rfl)

/-- C6 counterexample. A next call whose kwargs carry both include and
exclude, made under a FederatedRuntime on an aggregator-to-collaborator
transition with an empty clone registry and no foreach keyword: clone
preparation fails first, so the error that propagates is a KeyError, not
the include/exclude configuration error the claim promises. -/
theorem next_both_raises_keyerror_counterexample :
    (next exPrimary [] exCollabStep exAggStep "FederatedRuntime" ["c1"] exKwBoth).2 =
      Except.error "KeyError: foreach" ∧
    "KeyError: foreach" ≠ includeExcludeErrorMsg := by
  constructor
  · rfl
  · decide

theorem nextCloneStep_error
    (s : FLSpecState) (reg : Registry) (f parent_func : Step)
    (runtimeName : String) (collaborators : List String) (kw : Kwargs) (msg : String)
    (h : nextCloneStep s reg f parent_func runtimeName collaborators kw =
      Except.error msg) :
    get_clones s collaborators kw = Except.error msg := by
  rw [nextCloneStep] at h
  by_cases hc : aggregator_to_collaborator f parent_func = true ∧
      runtimeName = "FederatedRuntime" ∧ reg = []
  · rwa [if_pos hc] at h
  · rw [if_neg hc] at h
    exact Except.noConfusion h

/-- C6 amended. A next call whose kwargs carry both an include and an
exclude list always raises before any attribute of the primary flow state
is added, removed or changed (the returned state is exactly the input
state), and neither option is applied; the escaping error is the
include/exclude configuration error, except that on a FederatedRuntime
aggregator-to-collaborator transition with an empty registry a failure of
clone preparation (get_clones) may propagate first. -/
theorem next_both_include_exclude_raises_before_mutation
    (s : FLSpecState) (reg : Registry) (f parent_func : Step)
    (runtimeName : String) (collaborators : List String) (kw : Kwargs)
    (i e : List String) (hi : kw.includeOpt = some i) (he : kw.excludeOpt = some e) :
    (next s reg f parent_func runtimeName collaborators kw).1 = s ∧
    ∃ msg, (next s reg f parent_func runtimeName collaborators kw).2 = Except.error msg ∧
      (msg = includeExcludeErrorMsg ∨ get_clones s collaborators kw = Except.error msg) := by
  have hfa : filter_attributes s kw = Except.error includeExcludeErrorMsg := by
    rw [filter_attributes, hi, he]
  rcases hcs : nextCloneStep s reg f parent_func runtimeName collaborators kw with msg | reg1
  · constructor
    · rw [next, hcs]
    · refine ⟨msg, ?_, Or.inr ?_⟩
      · rw [next, hcs]
      · exact nextCloneStep_error s reg f parent_func runtimeName collaborators kw msg hcs
  · constructor
    · rw [next, hcs, hfa]
    · exact ⟨includeExcludeErrorMsg, by rw [next, hcs, hfa], Or.inl rfl⟩

/-- C6 witness. Both options on a LocalRuntime same-party call: the state
is returned untouched and an error escapes. -/
theorem next_both_include_exclude_raises_before_mutation_witness :
    (next exPrimary [] exAggStep2 exAggStep "LocalRuntime" [] exKwBoth).1 = exPrimary ∧
    ∃ msg, (next exPrimary [] exAggStep2 exAggStep "LocalRuntime" [] exKwBoth).2 =
        Except.error msg ∧
      (msg = includeExcludeErrorMsg ∨
        get_clones exPrimary [] exKwBoth = Except.error msg) :=
  next_both_include_exclude_raises_before_mutation exPrimary [] exAggStep2 exAggStep
    "LocalRuntime" [] exKwBoth ["a"] ["b"] rfl rfl

theorem foldl_setAttr_getAttr_notin :
    ∀ (l : List (String × Val)) (dst : FLSpecState) (n : String),
    (∀ p ∈ l, p.1 ≠ n) →
    getAttr (l.foldl (fun d p => setAttr d p.1 p.2) dst) n = getAttr dst n := by
  intro l
  induction l with
  | nil => intro dst n _; rfl
  | cons p t ih =>
    intro dst n hl
    rw [List.foldl_cons, ih _ n (fun q hq => hl q (List.mem_cons_of_mem _ hq)),
      getAttr_setAttr_ne dst p.1 n p.2 (hl p (List.mem_cons_self p t))]

theorem copyArtifacts_getAttr_of_src_absent
    (dst src : FLSpecState) (n : String) (h : getAttr src n = none) :
    getAttr (copyArtifacts dst src) n = getAttr dst n := by
  rw [copyArtifacts, generate_artifacts]
  exact foldl_setAttr_getAttr_notin src.attrs dst n ((alistGet_eq_none_iff src.attrs n).mp h)

theorem processClone_exclude_ok
    (selfS clone : FLSpecState) (col a0 : String) (exc' : List String) (fa : Option String)
    (hselfNoExc : ∀ n ∈ a0 :: exc', getAttr selfS n = none)
    (hInputNotExc : "input" ∉ a0 :: exc')
    (hselfNoInput : getAttr selfS "input" = none) :
    ∃ c2, processClone selfS ⟨none, some (a0 :: exc'), fa⟩ col clone = Except.ok c2 ∧
      getAttr c2 "input" = some (Val.vstr col) ∧
      c2.foreachMethods = selfS.foreachMethods ∧
      (hasAttr (setAttr clone "input" (Val.vstr col)) a0 = true →
        ∀ n ∈ a0 :: exc', getAttr c2 n = none) := by
  simp only [processClone, cloneFilterGate, List.head?]
  by_cases hg : hasAttr (setAttr clone "input" (Val.vstr col)) a0 = true
  · rw [if_pos hg]
    simp only [filter_attributes]
    refine ⟨_, rfl, ?_, ?_, ?_⟩
    · show getAttr (copyArtifacts _ selfS) "input" = some (Val.vstr col)
      rw [copyArtifacts_getAttr_of_src_absent _ selfS "input" hselfNoInput]
      show alistGet (List.filter _ _) "input" = some (Val.vstr col)
      rw [alistGet_filter_keep _ "input" _
        (fun p hp => by rw [hp]; simpa using hInputNotExc)]
      exact getAttr_setAttr_self clone "input" (Val.vstr col)
    · rfl
    · intro _ n hn
      show getAttr (copyArtifacts _ selfS) n = none
      rw [copyArtifacts_getAttr_of_src_absent _ selfS n (hselfNoExc n hn)]
      exact alistGet_filter_none _ n _
        (fun p hp => by rw [hp]; simp at hn ⊢; tauto)
  · rw [if_neg hg]
    refine ⟨_, rfl, ?_, ?_, ?_⟩
    · show getAttr (copyArtifacts _ selfS) "input" = some (Val.vstr col)
      rw [copyArtifacts_getAttr_of_src_absent _ selfS "input" hselfNoInput]
      exact getAttr_setAttr_self clone "input" (Val.vstr col)
    · rfl
    · intro hcontra
      exact absurd hcontra hg

theorem processAll_ok
    (selfS : FLSpecState) (kw : Kwargs)
    (P : String → FLSpecState → FLSpecState → Prop)
    (hP : ∀ col clone, ∃ c2, processClone selfS kw col clone = Except.ok c2 ∧ P col clone c2) :
    ∀ (cols : List String) (r : Registry), cols.Nodup →
    (∀ c ∈ cols, (alistGet r c).isSome = true) →
    ∃ r2, processAll selfS kw cols r = Except.ok r2 ∧
      (∀ col clone, col ∈ cols → alistGet r col = some clone →
        ∃ c2, alistGet r2 col = some c2 ∧ P col clone c2) ∧
      (∀ k, k ∉ cols → alistGet r2 k = alistGet r k) := by
  intro cols
  induction cols with
  | nil =>
    intro r _ _
    exact ⟨r, rfl, fun col clone h _ => absurd h (List.not_mem_nil col), fun k _ => rfl⟩
  | cons col rest ih =>
    intro r hnd hsome
    obtain ⟨clone, hclone⟩ : ∃ clone, alistGet r col = some clone := by
      have hs := hsome col (List.mem_cons_self col rest)
      rcases h : alistGet r col with _ | c
      · rw [h] at hs; simp at hs
      · exact ⟨c, rfl⟩
    obtain ⟨c2, hpc, hPc⟩ := hP col clone
    have hcolnotin : col ∉ rest := (List.nodup_cons.mp hnd).1
    have hrest : ∀ c ∈ rest, (alistGet (alistSet r col c2) c).isSome = true := by
      intro c hc
      rw [alistGet_alistSet_ne r col c c2 (by intro he; cases he; exact hcolnotin hc)]
      exact hsome c (List.mem_cons_of_mem _ hc)
    obtain ⟨r2, hall, hmem, huntouched⟩ :=
      ih (alistSet r col c2) (List.nodup_cons.mp hnd).2 hrest
    refine ⟨r2, ?_, ?_, ?_⟩
    · simp only [processAll, hclone, hpc]
      exact hall
    · intro col2 clone2 hcol2 hclone2
      rcases List.mem_cons.mp hcol2 with he | hm
      · subst he
        have hcc : clone2 = clone := by
          rw [hclone] at hclone2
          exact (Option.some.inj hclone2).symm
        subst hcc
        refine ⟨c2, ?_, hPc⟩
        rw [huntouched col2 hcolnotin, alistGet_alistSet_self]
      · refine hmem col2 clone2 hm ?_
        rw [alistGet_alistSet_ne r col col2 c2 (by intro he; cases he; exact hcolnotin hm)]
        exact hclone2
    · intro k hk
      rw [huntouched k (fun hkr => hk (List.mem_cons_of_mem _ hkr))]
      exact alistGet_alistSet_ne r col k c2
        (by intro he; cases he; exact hk (List.mem_cons_self col rest))

/-- C9 counterexample. Transition kwargs exclude=[a, b] over foreach
collection [c1]: the clone of c1 carries attribute b but not a, so the
gate on the FIRST listed name fails and filter_attributes is never
applied to the clone; the excluded attribute b survives on the clone,
although the claim requires every listed present attribute removed. -/
theorem filter_exclude_include_first_gate_counterexample :
    (filter_exclude_include exSelfC9 exRegC9 exKwC9).map
        (fun r => (alistGet r "c1").map (fun c => hasAttr c "b")) =
      Except.ok (some true) ∧
    exKwC9.excludeOpt = some ["a", "b"] ∧ "b" ∈ ["a", "b"] := by
  refine ⟨rfl, rfl, by decide⟩

theorem processClone_include_ok
    (selfS clone : FLSpecState) (col a0 : String) (inc' : List String) (fa : Option String)
    (hattrs : ∀ p ∈ selfS.attrs, p.1 ∈ a0 :: inc')
    (hInputInc : "input" ∈ a0 :: inc')
    (hselfNoInput : getAttr selfS "input" = none) :
    ∃ c2, processClone selfS ⟨some (a0 :: inc'), none, fa⟩ col clone = Except.ok c2 ∧
      getAttr c2 "input" = some (Val.vstr col) ∧
      c2.foreachMethods = selfS.foreachMethods ∧
      (hasAttr (setAttr clone "input" (Val.vstr col)) a0 = true →
        ∀ n, n ∉ a0 :: inc' → getAttr c2 n = none) := by
  have hselfN : ∀ n, n ∉ a0 :: inc' → getAttr selfS n = none := by
    intro n hn
    refine (alistGet_eq_none_iff selfS.attrs n).mpr ?_
    intro p hp he
    exact hn (he ▸ hattrs p hp)
  simp only [processClone, cloneFilterGate, List.head?]
  by_cases hg : hasAttr (setAttr clone "input" (Val.vstr col)) a0 = true
  · rw [hg]
    simp only [filter_attributes]
    refine ⟨_, rfl, ?_, ?_, ?_⟩
    · show getAttr (copyArtifacts _ selfS) "input" = some (Val.vstr col)
      rw [copyArtifacts_getAttr_of_src_absent _ selfS "input" hselfNoInput]
      show alistGet (List.filter _ _) "input" = some (Val.vstr col)
      rw [alistGet_filter_keep _ "input" _
        (fun p hp => by rw [hp]; simpa using hInputInc)]
      exact getAttr_setAttr_self clone "input" (Val.vstr col)
    · rfl
    · intro _ n hn
      show getAttr (copyArtifacts _ selfS) n = none
      rw [copyArtifacts_getAttr_of_src_absent _ selfS n (hselfN n hn)]
      exact alistGet_filter_none _ n _
        (fun p hp => by rw [hp]; simpa using hn)
  · simp only [Bool.not_eq_true] at hg
    rw [hg]
    refine ⟨_, rfl, ?_, ?_, ?_⟩
    · show getAttr (copyArtifacts _ selfS) "input" = some (Val.vstr col)
      rw [copyArtifacts_getAttr_of_src_absent _ selfS "input" hselfNoInput]
      exact getAttr_setAttr_self clone "input" (Val.vstr col)
    · rfl
    · intro hcontra
      exact Bool.noConfusion hcontra

/-- C9 amended. In a foreach transition carrying an exclude (or include)
list, every identity of the collection gets its clone processed: the input
field is set to the identity and the Foreach Method Set of the primary is
propagated; the include/exclude semantics are re-applied to a clone ONLY
when the clone has the FIRST-listed name of the given list, in which case
every attribute named in the exclude list is absent from the processed
clone (respectively, for include, every attribute not named is absent).
The primary is the already filtered state: free of the excluded names
(respectively carrying only included names), and free of input while
input is kept by the include list. -/
theorem filter_exclude_include_gated
    (selfS : FLSpecState) (reg : Registry) (fa a0 : String) (rest cols : List String)
    (hsel : getAttr selfS fa = some (Val.vnames cols))
    (hnd : cols.Nodup)
    (hreg : ∀ c ∈ cols, (alistGet reg c).isSome = true)
    (hselfNoInput : getAttr selfS "input" = none) :
    ((∀ n ∈ a0 :: rest, getAttr selfS n = none) → "input" ∉ a0 :: rest →
      ∃ reg2,
        filter_exclude_include selfS reg ⟨none, some (a0 :: rest), some fa⟩ =
          Except.ok reg2 ∧
        ∀ col clone, col ∈ cols → alistGet reg col = some clone →
          ∃ c2, alistGet reg2 col = some c2 ∧
            getAttr c2 "input" = some (Val.vstr col) ∧
            c2.foreachMethods = selfS.foreachMethods ∧
            (hasAttr (setAttr clone "input" (Val.vstr col)) a0 = true →
              ∀ n ∈ a0 :: rest, getAttr c2 n = none)) ∧
    ((∀ p ∈ selfS.attrs, p.1 ∈ a0 :: rest) → "input" ∈ a0 :: rest →
      ∃ reg2,
        filter_exclude_include selfS reg ⟨some (a0 :: rest), none, some fa⟩ =
          Except.ok reg2 ∧
        ∀ col clone, col ∈ cols → alistGet reg col = some clone →
          ∃ c2, alistGet reg2 col = some c2 ∧
            getAttr c2 "input" = some (Val.vstr col) ∧
            c2.foreachMethods = selfS.foreachMethods ∧
            (hasAttr (setAttr clone "input" (Val.vstr col)) a0 = true →
              ∀ n, n ∉ a0 :: rest → getAttr c2 n = none)) := by
  constructor
  · intro hselfNoExc hInputNotExc
    obtain ⟨r2, hall, hmem, _⟩ := processAll_ok selfS ⟨none, some (a0 :: rest), some fa⟩
      (fun col clone c2 =>
        getAttr c2 "input" = some (Val.vstr col) ∧
        c2.foreachMethods = selfS.foreachMethods ∧
        (hasAttr (setAttr clone "input" (Val.vstr col)) a0 = true →
          ∀ n ∈ a0 :: rest, getAttr c2 n = none))
      (fun col clone =>
        processClone_exclude_ok selfS clone col a0 rest (some fa)
          hselfNoExc hInputNotExc hselfNoInput)
      cols reg hnd hreg
    refine ⟨r2, ?_, hmem⟩
    simp only [filter_exclude_include, hsel]
    exact hall
  · intro hattrs hInputInc
    obtain ⟨r2, hall, hmem, _⟩ := processAll_ok selfS ⟨some (a0 :: rest), none, some fa⟩
      (fun col clone c2 =>
        getAttr c2 "input" = some (Val.vstr col) ∧
        c2.foreachMethods = selfS.foreachMethods ∧
        (hasAttr (setAttr clone "input" (Val.vstr col)) a0 = true →
          ∀ n, n ∉ a0 :: rest → getAttr c2 n = none))
      (fun col clone =>
        processClone_include_ok selfS clone col a0 rest (some fa)
          hattrs hInputInc hselfNoInput)
      cols reg hnd hreg
    refine ⟨r2, ?_, hmem⟩
    simp only [filter_exclude_include, hsel]
    exact hall

/-- C9 witness. The exclude half on a collaborator whose clone carries
the first-listed excluded attribute, and the include half on a
collaborator whose clone carries the first-listed included attribute
(the foreach collection name, which an include list must retain for the
transition to work). -/
theorem filter_exclude_include_gated_witness :
    (∃ reg2,
      filter_exclude_include exSelfC9 [("c1", ⟨[("a", Val.vnat 7)], [], none⟩)]
          ⟨none, some ("a" :: ["b"]), some "collabs"⟩ = Except.ok reg2 ∧
      ∀ col clone, col ∈ ["c1"] →
        alistGet [("c1", (⟨[("a", Val.vnat 7)], [], none⟩ : FLSpecState))] col = some clone →
        ∃ c2, alistGet reg2 col = some c2 ∧
          getAttr c2 "input" = some (Val.vstr col) ∧
          c2.foreachMethods = exSelfC9.foreachMethods ∧
          (hasAttr (setAttr clone "input" (Val.vstr col)) "a" = true →
            ∀ n ∈ "a" :: ["b"], getAttr c2 n = none)) ∧
    (∃ reg2,
      filter_exclude_include exSelfC9
          [("c1", ⟨[("collabs", Val.vnames ["c1"]), ("secret", Val.vnat 9)], [], none⟩)]
          ⟨some ("collabs" :: ["input"]), none, some "collabs"⟩ = Except.ok reg2 ∧
      ∀ col clone, col ∈ ["c1"] →
        alistGet [("c1", (⟨[("collabs", Val.vnames ["c1"]), ("secret", Val.vnat 9)], [],
            none⟩ : FLSpecState))] col = some clone →
        ∃ c2, alistGet reg2 col = some c2 ∧
          getAttr c2 "input" = some (Val.vstr col) ∧
          c2.foreachMethods = exSelfC9.foreachMethods ∧
          (hasAttr (setAttr clone "input" (Val.vstr col)) "collabs" = true →
            ∀ n, n ∉ "collabs" :: ["input"] → getAttr c2 n = none)) :=
  ⟨(filter_exclude_include_gated exSelfC9
      [("c1", ⟨[("a", Val.vnat 7)], [], none⟩)] "collabs" "a" ["b"] ["c1"]
      rfl (by decide) (by decide) rfl).1 (by decide) (by decide),
   (filter_exclude_include_gated exSelfC9
      [("c1", ⟨[("collabs", Val.vnames ["c1"]), ("secret", Val.vnat 9)], [], none⟩)]
      "collabs" "collabs" ["input"] ["c1"]
      rfl (by decide) (by decide) rfl).2 (by decide) (by decide)⟩

theorem init_le_foldl_max : ∀ (l : List Nat) (init : Nat), init ≤ l.foldl max init := by
  intro l
  induction l with
  | nil => intro init; exact le_refl init
  | cons b t ih =>
    intro init
    rw [List.foldl_cons]
    exact le_trans (le_max_left init b) (ih (max init b))

theorem le_foldl_max_of_mem :
    ∀ (l : List Nat) (init a : Nat), a ∈ l → a ≤ l.foldl max init := by
  intro l
  induction l with
  | nil => intro init a ha; exact absurd ha (List.not_mem_nil a)
  | cons b t ih =>
    intro init a ha
    rw [List.foldl_cons]
    rcases List.mem_cons.mp ha with he | hm
    · subst he
      exact le_trans (le_max_right init a) (init_le_foldl_max t (max init a))
    · exact ih (max init b) a hm

theorem lt_freshRef_of_mem (h : Heap) (r : Nat) (hr : r ∈ heapKeys h) : r < freshRef h :=
  Nat.lt_succ_of_le (le_foldl_max_of_mem (heapKeys h) 0 r hr)

theorem freshRef_lt_append_fresh (h : Heap) (c : List String) :
    freshRef h < freshRef (h ++ [(freshRef h, c)]) := by
  rw [freshRef, freshRef, heapKeys, heapKeys, List.map_append, List.foldl_append]
  simp only [List.map_cons, List.map_nil, List.foldl_cons, List.foldl_nil]
  omega

theorem cloneBuild_inv (prim : RObj) :
    ∀ (names : List String) (h : Heap) (reg : List (String × RObj)) (lo : Nat),
    (∀ p ∈ reg, p.2.fmRef < freshRef h) →
    (∀ p q, p ∈ reg → q ∈ reg → p.1 ≠ q.1 → p.2.fmRef ≠ q.2.fmRef) →
    lo ≤ freshRef h →
    (∀ p ∈ reg, lo ≤ p.2.fmRef) →
    (∀ p ∈ (cloneBuild prim names h reg).2,
        p.2.fmRef < freshRef (cloneBuild prim names h reg).1) ∧
    (∀ p q, p ∈ (cloneBuild prim names h reg).2 → q ∈ (cloneBuild prim names h reg).2 →
        p.1 ≠ q.1 → p.2.fmRef ≠ q.2.fmRef) ∧
    (∀ p ∈ (cloneBuild prim names h reg).2, lo ≤ p.2.fmRef) := by
  intro names
  induction names with
  | nil =>
    intro h reg lo hbound hpair hlo hreglo
    exact ⟨hbound, hpair, hreglo⟩
  | cons name rest ih =>
    intro h reg lo hbound hpair hlo hreglo
    simp only [cloneBuild]
    have hfr : freshRef h < freshRef (h ++ [(freshRef h, (heapGet h prim.fmRef).getD [])]) :=
      freshRef_lt_append_fresh h _
    refine ih _ _ lo ?_ ?_ (le_trans hlo (le_of_lt hfr)) ?_
    · intro p hp
      rcases mem_alistSet reg name _ p hp with he | hm
      · rw [he]; exact hfr
      · exact lt_trans (hbound p hm) hfr
    · intro p q hp hq hne
      rcases mem_alistSet reg name _ p hp with hep | hmp <;>
        rcases mem_alistSet reg name _ q hq with heq | hmq
      · rw [hep, heq] at hne
        exact absurd rfl hne
      · rw [hep]
        exact ne_of_gt (hbound q hmq)
      · rw [heq]
        exact ne_of_lt (hbound p hmp)
      · exact hpair p q hmp hmq hne
    · intro p hp
      rcases mem_alistSet reg name _ p hp with he | hm
      · rw [he]; exact hlo
      · exact hreglo p hm

theorem createClonesR_refs (sys : RSys) (names : List String) :
    (∀ p ∈ (createClonesR sys names).clones, freshRef sys.heap ≤ p.2.fmRef) ∧
    (∀ p q, p ∈ (createClonesR sys names).clones → q ∈ (createClonesR sys names).clones →
      p.1 ≠ q.1 → p.2.fmRef ≠ q.2.fmRef) := by
  have hinv := cloneBuild_inv sys.primary names sys.heap [] (freshRef sys.heap)
    (fun p hp => absurd hp (List.not_mem_nil p))
    (fun p q hp _ _ => absurd hp (List.not_mem_nil p))
    (le_refl _)
    (fun p hp => absurd hp (List.not_mem_nil p))
  exact ⟨hinv.2.2, hinv.2.1⟩

/-- C2 counterexample. After clone preparation by get_clones (reference
semantics), the clones and the primary hold the very same
_foreach_methods list object: an in-place append through the clone of c1
becomes visible through the primary and through the clone of c2. Before
the mutation the primary reads the empty list; afterwards it reads [x],
as does its sibling clone. -/
theorem clone_foreach_aliasing_counterexample :
    (get_clonesR exRSys ["c1", "c2"] ⟨none, none, some "collabs"⟩).map
        (fun sy => (primaryFm sy, primaryFm (appendFmOfClone sy "c1" "x"),
          cloneFm (appendFmOfClone sy "c1" "x") "c2")) =
      some (some [], some ["x"], some ["x"]) := by
  rfl

/-- C2 amended. Immediately after _create_clones (reference semantics), no
clone shares its Foreach Method Set object with another clone or with the
primary; hence an in-place append through one clone changes neither the
primary view nor a sibling view, and mutating an ordinary attribute of one
clone changes neither the primary nor a sibling clone. This independence
of the Foreach Method Set does not survive clone preparation (get_clones
and filter_exclude_include assign the primary list object to every clone,
see the counterexample). -/
theorem create_clones_no_shared_identity
    (sys : RSys) (names : List String) (c1 c2 x n : String) (v : Val)
    (hwf : sys.primary.fmRef ∈ heapKeys sys.heap) (hne : c1 ≠ c2) :
    (primaryFm (appendFmOfClone (createClonesR sys names) c1 x) =
      primaryFm (createClonesR sys names)) ∧
    (cloneFm (appendFmOfClone (createClonesR sys names) c1 x) c2 =
      cloneFm (createClonesR sys names) c2) ∧
    ((setAttrOfClone (createClonesR sys names) c1 n v).primary =
      (createClonesR sys names).primary) ∧
    (alistGet (setAttrOfClone (createClonesR sys names) c1 n v).clones c2 =
      alistGet (createClonesR sys names).clones c2) ∧
    (∀ o1 o2, alistGet (createClonesR sys names).clones c1 = some o1 →
      alistGet (createClonesR sys names).clones c2 = some o2 →
      o1.fmRef ≠ o2.fmRef ∧ o1.fmRef ≠ sys.primary.fmRef) := by
  obtain ⟨hlo, hpair⟩ := createClonesR_refs sys names
  have hprim : sys.primary.fmRef < freshRef sys.heap :=
    lt_freshRef_of_mem sys.heap sys.primary.fmRef hwf
  have hprimne : ∀ o1, alistGet (createClonesR sys names).clones c1 = some o1 →
      o1.fmRef ≠ sys.primary.fmRef := by
    intro o1 h1
    exact ne_of_gt (lt_of_lt_of_le hprim (hlo (c1, o1) (alistGet_mem _ c1 o1 h1)))
  have hrefne : ∀ o1 o2, alistGet (createClonesR sys names).clones c1 = some o1 →
      alistGet (createClonesR sys names).clones c2 = some o2 →
      o1.fmRef ≠ o2.fmRef := by
    intro o1 o2 h1 h2
    exact hpair (c1, o1) (c2, o2) (alistGet_mem _ c1 o1 h1) (alistGet_mem _ c2 o2 h2) hne
  refine ⟨?_, ?_, ?_, ?_, fun o1 o2 h1 h2 => ⟨hrefne o1 o2 h1 h2, hprimne o1 h1⟩⟩
  · rcases hg1 : alistGet (createClonesR sys names).clones c1 with _ | o1
    · simp only [appendFmOfClone, hg1]
    · simp only [appendFmOfClone, hg1, primaryFm, fmAppendAt, heapSet, heapGet]
      exact alistGet_alistSet_ne _ _ _ _ (hprimne o1 hg1)
  · rcases hg1 : alistGet (createClonesR sys names).clones c1 with _ | o1
    · simp only [appendFmOfClone, hg1]
    · rcases hg2 : alistGet (createClonesR sys names).clones c2 with _ | o2
      · simp only [appendFmOfClone, hg1, cloneFm, fmAppendAt, hg2, Option.bind]
      · simp only [appendFmOfClone, hg1, cloneFm, fmAppendAt, hg2, Option.bind,
          heapSet, heapGet]
        exact alistGet_alistSet_ne _ _ _ _ (hrefne o1 o2 hg1 hg2)
  · rcases hg1 : alistGet (createClonesR sys names).clones c1 with _ | o1
    · simp only [setAttrOfClone, hg1]
    · simp only [setAttrOfClone, hg1]
  · rcases hg1 : alistGet (createClonesR sys names).clones c1 with _ | o1
    · simp only [setAttrOfClone, hg1]
    · simp only [setAttrOfClone, hg1]
      exact alistGet_alistSet_ne _ _ _ _ hne

/-- C2 witness. The independence facts evaluated on the concrete
two-collaborator system right after _create_clones. -/
theorem create_clones_no_shared_identity_witness :
    (primaryFm (appendFmOfClone (createClonesR exRSys ["c1", "c2"]) "c1" "x") =
      primaryFm (createClonesR exRSys ["c1", "c2"])) ∧
    (cloneFm (appendFmOfClone (createClonesR exRSys ["c1", "c2"]) "c1" "x") "c2" =
      cloneFm (createClonesR exRSys ["c1", "c2"]) "c2") ∧
    ((setAttrOfClone (createClonesR exRSys ["c1", "c2"]) "c1" "a" (Val.vnat 5)).primary =
      (createClonesR exRSys ["c1", "c2"]).primary) ∧
    (alistGet (setAttrOfClone (createClonesR exRSys ["c1", "c2"]) "c1" "a"
        (Val.vnat 5)).clones "c2" =
      alistGet (createClonesR exRSys ["c1", "c2"]).clones "c2") ∧
    (∀ o1 o2, alistGet (createClonesR exRSys ["c1", "c2"]).clones "c1" = some o1 →
      alistGet (createClonesR exRSys ["c1", "c2"]).clones "c2" = some o2 →
      o1.fmRef ≠ o2.fmRef ∧ o1.fmRef ≠ exRSys.primary.fmRef) :=
  create_clones_no_shared_identity exRSys ["c1", "c2"] "c1" "c2" "x" "a" (Val.vnat 5)
    (by decide) (by decide)
